import Mathlib

/- Verification of models/modules.py: differentiable building blocks for
   multi-view stereo depth estimation (depth hypothesis generation,
   homography warping, depth regression, attention gating).

   Tensors are embedded shallowly as a shape list together with a total
   index function into the rationals (exact arithmetic stands in for the
   floating-point values), plus a dtype tag.  Operations that can raise at
   run time (broadcast mismatches, attribute errors) return Option. -/

/-- Numeric dtype tag of a tensor (floating-point kinds). -/
inductive DType where
  | float32
  | float64
deriving DecidableEq

/-- Dtype promotion for binary tensor operations. -/
def promote : DType → DType → DType
  | DType.float64, _ => DType.float64
  | _, DType.float64 => DType.float64
  | _, _ => DType.float32

/-- A dense tensor: a shape, a dtype and a total index function.
    Only indices that are in range for the shape are meaningful. -/
structure Tensor where
  shape : List Nat
  dtype : DType
  data : List Nat → ℚ

/-- Row-major flat index of a multi-index for a given shape. -/
def flatIndex : List Nat → List Nat → Nat
  | _ :: ds, i :: is => i * ds.prod + flatIndex ds is
  | _, _ => 0

/-- Inverse of flatIndex: the row-major multi-index of a flat position. -/
def unflatten : List Nat → Nat → List Nat
  | [], _ => []
  | _ :: ds, k => k / ds.prod :: unflatten ds (k % ds.prod)

/-- Number of elements of a tensor. -/
def Tensor.numel (t : Tensor) : Nat := t.shape.prod

/-- torch reshape / view: same row-major element order, new shape. -/
def reshape (t : Tensor) (s : List Nat) : Tensor :=
  ⟨s, t.dtype, fun idx => t.data (unflatten t.shape (flatIndex s idx))⟩

/-- tensor.unsqueeze(1): insert a singleton axis at position 1. -/
def unsqueeze1 (t : Tensor) : Tensor :=
  reshape t (t.shape.take 1 ++ 1 :: t.shape.drop 1)

/-- Broadcasting of one dimension pair (NumPy / PyTorch rule). -/
def bdim (a b : Nat) : Option Nat :=
  if a = b then some a
  else if a = 1 then some b
  else if b = 1 then some a
  else none

/-- Broadcasting of two shapes, given with their dimensions reversed
    (so that alignment starts from the trailing dimension). -/
def bcastRev : List Nat → List Nat → Option (List Nat)
  | [], t => some t
  | s, [] => some s
  | a :: s, b :: t => do
      let d ← bdim a b
      let r ← bcastRev s t
      pure (d :: r)

/-- Broadcast shape of two shapes, or none when they are incompatible. -/
def broadcastShapes (s t : List Nat) : Option (List Nat) :=
  (bcastRev s.reverse t.reverse).map List.reverse

/-- The index into a tensor of shape s corresponding to an index idx of the
    broadcast result: leading extra axes are dropped and singleton axes of s
    are pinned to 0. -/
def bcastIndex (s : List Nat) (idx : List Nat) : List Nat :=
  (s.zip (idx.drop (idx.length - s.length))).map fun di =>
    if di.1 = 1 then 0 else di.2

/-- Read a tensor at an index of a broadcast result shape. -/
def Tensor.bget (t : Tensor) (idx : List Nat) : ℚ :=
  t.data (bcastIndex t.shape idx)

/-- Elementwise binary operation with broadcasting; none models the runtime
    error raised on incompatible shapes. -/
def ew (f : ℚ → ℚ → ℚ) (a b : Tensor) : Option Tensor :=
  (broadcastShapes a.shape b.shape).map fun s =>
    ⟨s, promote a.dtype b.dtype, fun idx => f (a.bget idx) (b.bget idx)⟩

def tadd : Tensor → Tensor → Option Tensor := ew (· + ·)

def tsub : Tensor → Tensor → Option Tensor := ew (· - ·)

def tmul : Tensor → Tensor → Option Tensor := ew (· * ·)

/-- Multiplication of a tensor by a Python float scalar
    (shape and dtype are preserved). -/
def scalarMulT (q : ℚ) (t : Tensor) : Tensor :=
  ⟨t.shape, t.dtype, fun i => q * t.data i⟩

/-- Addition of a Python int scalar to a tensor
    (shape and dtype are preserved). -/
def addScalar (t : Tensor) (q : ℚ) : Tensor :=
  ⟨t.shape, t.dtype, fun i => t.data i + q⟩

/-- torch.sum(x, 1): sum out dimension 1 (for tensors of rank at least 2). -/
def sumDim1 (t : Tensor) : Tensor :=
  match t.shape with
  | s0 :: s1 :: rest =>
      ⟨s0 :: rest, t.dtype, fun idx =>
        match idx with
        | b :: r => ∑ i in Finset.range s1, t.data (b :: i :: r)
        | [] => 0⟩
  | _ => t

/-- x.to(dtype): dtype cast (value-preserving in this exact-arithmetic
    model; only the tag changes). -/
def castTo (t : Tensor) (dt : DType) : Tensor := ⟨t.shape, dt, t.data⟩

/-- A Python value passed as the depth_interval argument of
    get_depth_values: a float, an int, or a tensor. -/
inductive PyVal where
  | pfloat (q : ℚ)
  | pint (z : ℤ)
  | ptensor (t : Tensor)

/-- torch.arange(0, n, dtype=dt).reshape(1, -1, 1, 1). -/
def arangeR (dt : DType) (n : Nat) : Tensor :=
  ⟨[1, n, 1, 1], dt, fun idx =>
    match idx with
    | [_, d, _, _] => (d : ℚ)
    | _ => 0⟩

/-- get_depth_values(current_depth, n_depths, depth_interval) from
    models/modules.py.

    Source behaviour embedded here:
    if not isinstance(depth_interval, float): the reshaping branch runs;
    a Python int has no ndim attribute, so depth_interval.ndim raises
    AttributeError (modelled as none); a tensor of ndim 2 is reshaped to
    (-1,1,1,1), one of ndim 3 gets unsqueeze(1), any other ndim is used
    unchanged.  Then
    depth_min = current_depth - n_depths/2 * depth_interval  and
    depth_values = depth_min + depth_interval * arange(0, n_depths),
    the arange being reshaped to (1, n_depths, 1, 1) with current_depth's
    dtype; n_depths/2 is Python true division. -/
def get_depth_values (current_depth : Tensor) (n_depths : Nat)
    (depth_interval : PyVal) : Option Tensor :=
  match depth_interval with
  | PyVal.pfloat q =>
      let depth_min : Tensor :=
        ⟨current_depth.shape, current_depth.dtype,
          fun i => current_depth.data i - (n_depths : ℚ) / 2 * q⟩
      tadd depth_min (scalarMulT q (arangeR current_depth.dtype n_depths))
  | PyVal.pint _ => none
  | PyVal.ptensor t =>
      let di :=
        if t.shape.length = 2 then reshape t [t.numel, 1, 1, 1]
        else if t.shape.length = 3 then unsqueeze1 t
        else t
      do
        let depth_min ← tsub current_depth
          (scalarMulT ((n_depths : ℚ) / 2) di)
        let step ← tmul di (arangeR current_depth.dtype n_depths)
        tadd depth_min step

/-- depth_regression(p, depth_values) from models/modules.py:
    if depth_values.dim() <= 2 it is viewed with two trailing singleton
    axes appended, then depth = sum over dim 1 of p * depth_values, cast
    to depth_values' dtype. -/
def depth_regression (p : Tensor) (depth_values : Tensor) : Option Tensor :=
  let dv :=
    if depth_values.shape.length ≤ 2 then
      reshape depth_values (depth_values.shape ++ [1, 1])
    else depth_values
  (tmul p dv).map fun prod => castTo (sumDim1 prod) dv.dtype

/-- Output spatial size of a convolution:
    floor((n + 2*pad - kernel)/stride) + 1. -/
def convOut (n k stride pad : Nat) : Nat :=
  (((n : ℤ) + 2 * pad - k) / stride + 1).toNat

/-- Zero-padded read of a (B,C,D,H,W) tensor at integer spatial positions
    (out-of-range positions read as 0, modelling convolution padding). -/
def padRead (x : Tensor) (Dd Hh Ww : Nat) (b c : Nat) (d h w : ℤ) : ℚ :=
  if 0 ≤ d ∧ d < (Dd : ℤ) ∧ 0 ≤ h ∧ h < (Hh : ℤ) ∧ 0 ≤ w ∧ w < (Ww : ℤ) then
    x.data [b, c, d.toNat, h.toNat, w.toNat]
  else 0

/-- The index function of a 3D convolution output (cubic kernel, no
    bias): a sum over input channels and kernel offsets. -/
def conv3dData (wgt : Nat → Nat → Nat → Nat → Nat → ℚ)
    (Cin k stride pad : Nat) (x : Tensor) (Dd Hh Ww : Nat) :
    List Nat → ℚ :=
  fun idx =>
    match idx with
    | [b, o, d, h, w] =>
        ∑ c in Finset.range Cin, ∑ i in Finset.range k,
        ∑ j in Finset.range k, ∑ l in Finset.range k,
          wgt o c i j l *
            padRead x Dd Hh Ww b c ((d * stride + i : ℤ) - pad)
              ((h * stride + j : ℤ) - pad) ((w * stride + l : ℤ) - pad)
    | _ => 0

/-- nn.Conv3d with cubic kernel, no bias; fails (none) when the input is
    not 5-dimensional or its channel count disagrees with the weight. -/
def conv3d (wgt : Nat → Nat → Nat → Nat → Nat → ℚ)
    (Cin Cout k stride pad : Nat) (x : Tensor) : Option Tensor :=
  match x.shape with
  | [B, C, Dd, Hh, Ww] =>
      if C = Cin then
        some ⟨[B, Cout, convOut Dd k stride pad, convOut Hh k stride pad,
               convOut Ww k stride pad], x.dtype,
              conv3dData wgt Cin k stride pad x Dd Hh Ww⟩
      else none
  | _ => none

/-- ConvBnReLU3D from models/modules.py: Conv3d (no bias) followed by the
    injected norm_act module (the InPlaceABN default is an external
    normalization+activation treated as an opaque stage here, exactly as
    the constructor allows substituting it). -/
structure ConvBnReLU3D where
  in_channels : Nat
  out_channels : Nat
  kernel_size : Nat
  stride : Nat
  pad : Nat
  weight : Nat → Nat → Nat → Nat → Nat → ℚ
  norm_act : Tensor → Tensor

/-- ConvBnReLU3D.forward: self.bn(self.conv(x)). -/
def ConvBnReLU3D.forward (m : ConvBnReLU3D) (x : Tensor) : Option Tensor :=
  (conv3d m.weight m.in_channels m.out_channels m.kernel_size m.stride
    m.pad x).map m.norm_act

/-- AttentionBranch from models/modules.py: conv1 maps in_channels to 1
    and conv2 maps 1 to 1, both with kernel size 1 and padding 0. -/
structure AttentionBranch where
  in_channels : Nat
  conv1 : ConvBnReLU3D
  conv2 : ConvBnReLU3D

/-- AttentionBranch.__init__(in_channels, norm_act), with the learned
    convolution weights made explicit. -/
def AttentionBranch.init (c : Nat)
    (w1 w2 : Nat → Nat → Nat → Nat → Nat → ℚ)
    (na1 na2 : Tensor → Tensor) : AttentionBranch :=
  ⟨c, ⟨c, 1, 1, 1, 0, w1, na1⟩, ⟨1, 1, 1, 1, 0, w2, na2⟩⟩

/-- AttentionBranch.forward:
    attention = self.conv2(self.conv1(x)); return x * (attention + 1). -/
def AttentionBranch.forward (m : AttentionBranch) (x : Tensor) :
    Option Tensor :=
  (m.conv1.forward x).bind fun a1 =>
    (m.conv2.forward a1).bind fun attention =>
      tmul x (addScalar attention 1)

/-- The homogeneous reference pixel grid of homo_warp:
    create_meshgrid(H, W, normalized_coordinates=False) produces (1,H,W,2)
    with entry (y,x,0) = x and (y,x,1) = y; after permute(0,3,1,2),
    reshape(1,2,H*W), expand(B,-1,-1) and concatenation with a row of
    ones, entry (c,p) is x = p % W for c = 0, y = p / W for c = 1, and 1
    for c = 2. -/
def refGrid (Ww : Nat) (c p : Nat) : ℚ :=
  if c = 0 then ((p % Ww : Nat) : ℚ)
  else if c = 1 then ((p / Ww : Nat) : ℚ)
  else 1

/-- ref_grid_d = ref_grid.repeat(1, 1, D): position q < D*H*W reads the
    grid at q % (H*W). -/
def refGridD (Ww HW : Nat) (c q : Nat) : ℚ := refGrid Ww c (q % HW)

/-- depth_values.view(B, 1, D*H*W): flat row-major read of the (B,D,H,W)
    volume at (b, q). -/
def depthFlat (dv : Tensor) (Hh Ww : Nat) (b q : Nat) : ℚ :=
  dv.data [b, q / (Hh * Ww), q % (Hh * Ww) / Ww, q % Ww]

/-- src_grid_d = R @ ref_grid_d + T/depth_values.view(B,1,D*H*W), where
    R = proj_mat[:, :, :3] and T = proj_mat[:, :, 3:]. -/
def srcGridD (pm dv : Tensor) (Hh Ww : Nat) (b i q : Nat) : ℚ :=
  (∑ j in Finset.range 3, pm.data [b, i, j] * refGridD Ww (Hh * Ww) j q) +
    pm.data [b, i, 3] / depthFlat dv Hh Ww b q

/-- src_grid = src_grid_d[:, :2] / src_grid_d[:, -1:] (the perspective
    divide). -/
def srcGridP (pm dv : Tensor) (Hh Ww : Nat) (b c q : Nat) : ℚ :=
  srcGridD pm dv Hh Ww b c q / srcGridD pm dv Hh Ww b 2 q

/-- The [-1,1] normalization of src_grid:
    src_grid[:, 0] = src_grid[:, 0]/((W - 1)/2) - 1 and
    src_grid[:, 1] = src_grid[:, 1]/((H - 1)/2) - 1
    ((W - 1)/2 is Python true division). -/
def srcGridNorm (pm dv : Tensor) (Hh Ww : Nat) (b c q : Nat) : ℚ :=
  if c = 0 then srcGridP pm dv Hh Ww b 0 q / (((Ww : ℚ) - 1) / 2) - 1
  else srcGridP pm dv Hh Ww b 1 q / (((Hh : ℚ) - 1) / 2) - 1

/-- One zero-padded read of the source feature map by grid sampling: a
    corner outside the image reads as 0 (padding_mode zeros). -/
def pixRead (feat : List Nat → ℚ) (Hh Ww : Nat) (b c : Nat)
    (yi xi : ℤ) : ℚ :=
  if 0 ≤ xi ∧ xi < (Ww : ℤ) ∧ 0 ≤ yi ∧ yi < (Hh : ℤ) then
    feat [b, c, yi.toNat, xi.toNat]
  else 0

/-- One sample of F.grid_sample(src_feat, grid, mode=bilinear,
    padding_mode=zeros, align_corners=True) at normalized coordinates
    (x, y): with align_corners, x maps to pixel coordinate
    (x+1)*(W-1)/2 (so the corner pixels align exactly with -1 and 1),
    and the value is the bilinear blend of the four surrounding pixels,
    out-of-bounds corners contributing 0. -/
def grid_sample_point (feat : List Nat → ℚ) (Hh Ww : Nat) (b c : Nat)
    (x y : ℚ) : ℚ :=
  let ix := (x + 1) * ((Ww : ℚ) - 1) / 2
  let iy := (y + 1) * ((Hh : ℚ) - 1) / 2
  let x0 : ℤ := Int.floor ix
  let y0 : ℤ := Int.floor iy
  let wx := ix - (x0 : ℚ)
  let wy := iy - (y0 : ℚ)
  (1 - wx) * (1 - wy) * pixRead feat Hh Ww b c y0 x0 +
    wx * (1 - wy) * pixRead feat Hh Ww b c y0 (x0 + 1) +
    (1 - wx) * wy * pixRead feat Hh Ww b c (y0 + 1) x0 +
    wx * wy * pixRead feat Hh Ww b c (y0 + 1) (x0 + 1)

/-- The index function of homo_warp's output: entry (b,c,d,h,w) samples
    src_feat[b,c] at the normalized source coordinates of flat position
    q = d*H*W + h*W + w. -/
def homoWarpData (sf pm dv : Tensor) (Hh Ww : Nat) : List Nat → ℚ :=
  fun idx =>
    match idx with
    | [b, c, d, h, w] =>
        grid_sample_point sf.data Hh Ww b c
          (srcGridNorm pm dv Hh Ww b 0 (d * (Hh * Ww) + (h * Ww + w)))
          (srcGridNorm pm dv Hh Ww b 1 (d * (Hh * Ww) + (h * Ww + w)))
    | _ => 0

/-- homo_warp(src_feat, proj_mat, depth_values) from models/modules.py:
    B, C, H, W are read from src_feat's shape and D from
    depth_values.shape[1]; the output is (B,C,D,H,W). -/
def homo_warp (src_feat pm dv : Tensor) : Tensor :=
  match src_feat.shape with
  | [B, C, Hh, Ww] =>
      ⟨[B, C, dv.shape.getD 1 0, Hh, Ww], src_feat.dtype,
        homoWarpData src_feat pm dv Hh Ww⟩
  | _ => ⟨[], src_feat.dtype, fun _ => 0⟩

/-- A store of tensor buffers, used to make homo_warp's in-place writes
    and buffer allocations explicit.  Ids below next are allocated. -/
structure Store where
  next : Nat
  buf : Nat → List Nat → ℚ

/-- Allocate a fresh buffer holding d; its id is the old value of next. -/
def Store.alloc (σ : Store) (d : List Nat → ℚ) : Store :=
  ⟨σ.next + 1, fun i => if i = σ.next then d else σ.buf i⟩

/-- In-place write of buffer i. -/
def Store.write (σ : Store) (i : Nat) (d : List Nat → ℚ) : Store :=
  ⟨σ.next, fun j => if j = i then d else σ.buf j⟩

/-- The sequence of buffer operations performed by homo_warp, with the
    source's views and copies made explicit: slicing R = proj_mat[:,:,:3],
    T = proj_mat[:,:,3:] and depth_values.view(B,1,D*H*W) are views (no
    allocation, no write); create_meshgrid, the reshape of the permuted
    grid (a copy, since the permuted tensor is not contiguous), torch.cat,
    repeat, the matmul, the division T/depth, their sum src_grid_d, the
    perspective division src_grid and F.grid_sample allocate fresh
    buffers; the two in-place [-1,1] normalizations write into src_grid's
    freshly allocated buffer; the del statements only drop Python name
    bindings.  Returns the final store and the output buffer id. -/
def homo_warp_state (σ0 : Store) (srcId projId depthId B C D Hh Ww : Nat) :
    Store × Nat :=
  let R := fun b i j => σ0.buf projId [b, i, j]
  let T := fun b i => σ0.buf projId [b, i, 3]
  let gridId := σ0.next
  let σ1 := σ0.alloc fun idx =>
    match idx with
    | [_, y, x, c] => if c = 0 then (x : ℚ) else (y : ℚ)
    | _ => 0
  let grid2Id := σ1.next
  let σ2 := σ1.alloc fun idx =>
    match idx with
    | [_, c, p] => σ1.buf gridId [0, p / Ww, p % Ww, c]
    | _ => 0
  let catId := σ2.next
  let σ3 := σ2.alloc fun idx =>
    match idx with
    | [b, c, p] => if c = 2 then 1 else σ2.buf grid2Id [0, c, p]
    | _ => 0
  let repId := σ3.next
  let σ4 := σ3.alloc fun idx =>
    match idx with
    | [b, c, q] => σ3.buf catId [b, c, q % (Hh * Ww)]
    | _ => 0
  let mmId := σ4.next
  let σ5 := σ4.alloc fun idx =>
    match idx with
    | [b, i, q] => ∑ j in Finset.range 3, R b i j * σ4.buf repId [b, j, q]
    | _ => 0
  let tdId := σ5.next
  let σ6 := σ5.alloc fun idx =>
    match idx with
    | [b, i, q] =>
        T b i / σ5.buf depthId [b, q / (Hh * Ww), q % (Hh * Ww) / Ww, q % Ww]
    | _ => 0
  let sgdId := σ6.next
  let σ7 := σ6.alloc fun idx =>
    match idx with
    | [b, i, q] => σ6.buf mmId [b, i, q] + σ6.buf tdId [b, i, q]
    | _ => 0
  let sgId := σ7.next
  let σ8 := σ7.alloc fun idx =>
    match idx with
    | [b, c, q] => σ7.buf sgdId [b, c, q] / σ7.buf sgdId [b, 2, q]
    | _ => 0
  let σ9 := σ8.write sgId fun idx =>
    match idx with
    | [b, c, q] =>
        if c = 0 then σ8.buf sgId [b, 0, q] / (((Ww : ℚ) - 1) / 2) - 1
        else σ8.buf sgId [b, c, q]
    | _ => 0
  let σA := σ9.write sgId fun idx =>
    match idx with
    | [b, c, q] =>
        if c = 1 then σ9.buf sgId [b, 1, q] / (((Hh : ℚ) - 1) / 2) - 1
        else σ9.buf sgId [b, c, q]
    | _ => 0
  let outId := σA.next
  let σB := σA.alloc fun idx =>
    match idx with
    | [b, c, d, h, w] =>
        grid_sample_point (σA.buf srcId) Hh Ww b c
          (σA.buf sgId [b, 0, d * (Hh * Ww) + (h * Ww + w)])
          (σA.buf sgId [b, 1, d * (Hh * Ww) + (h * Ww + w)])
    | _ => 0
  (σB, outId)

/- ------------------------------------------------------------------ -/
/- Concrete tensors used to instantiate the theorems below.           -/
/- ------------------------------------------------------------------ -/

/-- A (1,1,1,1,1) feature volume with constant value 2. -/
def xAtt : Tensor := ⟨[1, 1, 1, 1, 1], DType.float32, fun _ => 2⟩

/-- The all-zero convolution weight. -/
def wZero : Nat → Nat → Nat → Nat → Nat → ℚ := fun _ _ _ _ _ => 0

/-- A (1,1,2,2) source feature map with value 1 + 2*h + w at pixel
    (h, w). -/
def sfNum : Tensor :=
  ⟨[1, 1, 2, 2], DType.float32, fun idx =>
    match idx with
    | [_, _, h, w] => 1 + 2 * (h : ℚ) + (w : ℚ)
    | _ => 0⟩

/-- The identity projection matrix of shape (1,3,4): R = I, T = 0. -/
def pmId : Tensor :=
  ⟨[1, 3, 4], DType.float32, fun idx =>
    match idx with
    | [_, i, j] => if j = i then 1 else 0
    | _ => 0⟩

/-- A (1,1,2,2) depth-value volume with constant value 1. -/
def dvOne : Tensor := ⟨[1, 1, 2, 2], DType.float32, fun _ => 1⟩

/-- An all-ones (1,1,2,2) source feature map. -/
def sfOnes : Tensor := ⟨[1, 1, 2, 2], DType.float32, fun _ => 1⟩

/-- A (1,3,4) projection with identity rotation and translation
    (-6/5, -6/5, 0): with unit depths it shifts every projected pixel
    slightly past the left and top image borders. -/
def pmShift : Tensor :=
  ⟨[1, 3, 4], DType.float32, fun idx =>
    match idx with
    | [_, i, j] =>
        if j = 3 then (if i = 2 then 0 else -(6 / 5))
        else if j = i then 1 else 0
    | _ => 0⟩

/-- A (1,3,4) projection with identity rotation and translation
    (-10, -10, 0): with unit depths every projected pixel lands far
    outside the image. -/
def pmFar : Tensor :=
  ⟨[1, 3, 4], DType.float32, fun idx =>
    match idx with
    | [_, i, j] =>
        if j = 3 then (if i = 2 then 0 else -10)
        else if j = i then 1 else 0
    | _ => 0⟩

/-- An initial store with three allocated buffers 0, 1, 2, all zero. -/
def store0 : Store := ⟨3, fun _ _ => 0⟩

/-- A (1,1,1,1) depth map with constant value 10. -/
def cdTen : Tensor := ⟨[1, 1, 1, 1], DType.float32, fun _ => 10⟩

/-- A (2,1,1,1) depth map with constant value 10 (batch size 2). -/
def cdB2 : Tensor := ⟨[2, 1, 1, 1], DType.float32, fun _ => 10⟩

/-- A rank-2 interval tensor of shape (3,1): its leading dimension 3
    disagrees with batch size 2. -/
def tInt31 : Tensor := ⟨[3, 1], DType.float32, fun _ => 1⟩

/-- A rank-4 interval tensor of shape (1,1,1,1). -/
def tInt4 : Tensor := ⟨[1, 1, 1, 1], DType.float32, fun _ => 1⟩

/-- A rank-2 interval tensor of shape (1,1). -/
def tInt11 : Tensor := ⟨[1, 1], DType.float32, fun _ => 1⟩

/-- A (1,2,1,1) probability volume, one-hot at depth index 1. -/
def pOneHot : Tensor :=
  ⟨[1, 2, 1, 1], DType.float32, fun idx =>
    match idx with
    | [_, i, _, _] => if i = 1 then 1 else 0
    | _ => 0⟩

/-- A rank-1 depth-value sequence (5, 6) of shape (2). -/
def dvSeq : Tensor :=
  ⟨[2], DType.float32, fun idx =>
    match idx with
    | [i] => 5 + (i : ℚ)
    | _ => 0⟩

/-- A rank-3 depth-value tensor of shape (2,1,1), broadcast-compatible
    with pOneHot. -/
def dvRank3 : Tensor :=
  ⟨[2, 1, 1], DType.float32, fun idx =>
    match idx with
    | [i, _, _] => 5 + (i : ℚ)
    | _ => 0⟩

/- ------------------------------------------------------------------ -/
/- Helper lemmas.                                                     -/
/- ------------------------------------------------------------------ -/

theorem ite_one_dim (n i : Nat) (h : i < n) : (if n = 1 then 0 else i) = i := by
  rcases eq_or_ne n 1 with h1 | h1 <;> simp [h1] <;> omega

theorem bdim_self (a : Nat) : bdim a a = some a := by simp [bdim]

theorem bdim_one_left (b : Nat) : bdim 1 b = some b := by
  by_cases h : b = 1
  · subst h; simp [bdim]
  · simp [bdim, h, Ne.symm h]

theorem bdim_one_right (a : Nat) : bdim a 1 = some a := by
  by_cases h : a = 1 <;> simp [bdim, h]

/-- Evaluation of a broadcasting elementwise operation once the broadcast
    shape is known. -/
theorem ew_eq (f : ℚ → ℚ → ℚ) (a b : Tensor) (s : List Nat)
    (h : broadcastShapes a.shape b.shape = some s) :
    ew f a b =
      some ⟨s, promote a.dtype b.dtype,
        fun idx => f (a.bget idx) (b.bget idx)⟩ := by
  unfold ew
  rw [h]
  rfl

theorem tadd_eq (a b : Tensor) (s : List Nat)
    (h : broadcastShapes a.shape b.shape = some s) :
    tadd a b =
      some ⟨s, promote a.dtype b.dtype,
        fun idx => a.bget idx + b.bget idx⟩ :=
  ew_eq (· + ·) a b s h

theorem tsub_eq (a b : Tensor) (s : List Nat)
    (h : broadcastShapes a.shape b.shape = some s) :
    tsub a b =
      some ⟨s, promote a.dtype b.dtype,
        fun idx => a.bget idx - b.bget idx⟩ :=
  ew_eq (· - ·) a b s h

theorem tmul_eq (a b : Tensor) (s : List Nat)
    (h : broadcastShapes a.shape b.shape = some s) :
    tmul a b =
      some ⟨s, promote a.dtype b.dtype,
        fun idx => a.bget idx * b.bget idx⟩ :=
  ew_eq (· * ·) a b s h

theorem bcastIndex_four (s0 s1 s2 s3 i0 i1 i2 i3 : Nat) :
    bcastIndex [s0, s1, s2, s3] [i0, i1, i2, i3] =
      [if s0 = 1 then 0 else i0, if s1 = 1 then 0 else i1,
       if s2 = 1 then 0 else i2, if s3 = 1 then 0 else i3] := rfl

theorem bcastIndex_five (s0 s1 s2 s3 s4 i0 i1 i2 i3 i4 : Nat) :
    bcastIndex [s0, s1, s2, s3, s4] [i0, i1, i2, i3, i4] =
      [if s0 = 1 then 0 else i0, if s1 = 1 then 0 else i1,
       if s2 = 1 then 0 else i2, if s3 = 1 then 0 else i3,
       if s4 = 1 then 0 else i4] := rfl

/- ------------------------------------------------------------------ -/
/- Claim theorems.                                                    -/
/- ------------------------------------------------------------------ -/

/-- Claim C1: for a depth map current_depth of shape (B,1,H,W), a positive
    n_depths and a scalar float depth_interval, get_depth_values returns a
    (B,n_depths,H,W) volume whose value at (b,d,h,w) is
    current_depth[b,0,h,w] - (n_depths/2)*depth_interval
    + d*depth_interval, with n_depths/2 true division. -/
theorem C1_get_depth_values_scalar (cd : Tensor) (B H W n : Nat) (q : ℚ)
    (hcd : cd.shape = [B, 1, H, W]) (hn : 0 < n) :
    (get_depth_values cd n (PyVal.pfloat q)).map Tensor.shape =
        some [B, n, H, W] ∧
    ∀ b ∈ Finset.range B, ∀ d ∈ Finset.range n, ∀ h ∈ Finset.range H,
      ∀ w ∈ Finset.range W,
        (get_depth_values cd n (PyVal.pfloat q)).map
            (fun t => t.data [b, d, h, w]) =
          some (cd.data [b, 0, h, w] - (n : ℚ) / 2 * q + (d : ℚ) * q) := by
  have hgd : get_depth_values cd n (PyVal.pfloat q) =
      tadd ⟨cd.shape, cd.dtype, fun i => cd.data i - (n : ℚ) / 2 * q⟩
        (scalarMulT q (arangeR cd.dtype n)) := rfl
  have hshape : broadcastShapes cd.shape [1, n, 1, 1] = some [B, n, H, W] := by
    rw [hcd]
    simp [broadcastShapes, bcastRev, bdim_one_left, bdim_one_right, bdim_self]
  have key := tadd_eq ⟨cd.shape, cd.dtype, fun i => cd.data i - (n : ℚ) / 2 * q⟩
    (scalarMulT q (arangeR cd.dtype n)) [B, n, H, W]
    (by simpa [scalarMulT, arangeR] using hshape)
  constructor
  · rw [hgd, key]
    rfl
  · intro b hb d hd h hh w hw
    simp only [Finset.mem_range] at hb hd hh hw
    rw [hgd, key]
    simp only [Option.map_some', Option.some.injEq, Tensor.bget, hcd,
      scalarMulT, arangeR, bcastIndex_four]
    rw [ite_one_dim B b hb, ite_one_dim H h hh, ite_one_dim W w hw,
      ite_one_dim n d hd]
    norm_num
    ring

/-- Claim C1 witness: for a constant depth map of value 10, n_depths = 5
    and interval 2.0, the per-pixel depth values are 5, 7, 9, 11, 13. -/
theorem C1_get_depth_values_scalar_witness :
    cdTen.shape = [1, 1, 1, 1] ∧
    (get_depth_values cdTen 5 (PyVal.pfloat 2)).map
        (fun t => t.data [0, 0, 0, 0]) = some 5 ∧
    (get_depth_values cdTen 5 (PyVal.pfloat 2)).map
        (fun t => t.data [0, 1, 0, 0]) = some 7 ∧
    (get_depth_values cdTen 5 (PyVal.pfloat 2)).map
        (fun t => t.data [0, 2, 0, 0]) = some 9 ∧
    (get_depth_values cdTen 5 (PyVal.pfloat 2)).map
        (fun t => t.data [0, 3, 0, 0]) = some 11 ∧
    (get_depth_values cdTen 5 (PyVal.pfloat 2)).map
        (fun t => t.data [0, 4, 0, 0]) = some 13 := by
  refine ⟨rfl, ?_, ?_, ?_, ?_, ?_⟩ <;>
    · rw [(C1_get_depth_values_scalar cdTen 1 1 1 5 2 rfl (by decide)).2
        0 (by decide) _ (by decide) 0 (by decide) 0 (by decide)]
      simp only [cdTen, Option.some.injEq]
      norm_num

/-- Claim C5: for every depth map, every positive scalar float
    depth_interval and every n_depths ≥ 2, the generated depth values are
    strictly increasing along the depth axis at every pixel. -/
theorem C5_get_depth_values_strict_mono (cd : Tensor) (B H W n : Nat) (q : ℚ)
    (hcd : cd.shape = [B, 1, H, W]) (hq : 0 < q) (hn : 2 ≤ n)
    (d d' : Nat) (hdd : d < d') (hd' : d' < n) :
    ∀ b h w : Nat,
      (get_depth_values cd n (PyVal.pfloat q)).map
          (fun t => decide (t.data [b, d, h, w] < t.data [b, d', h, w])) =
        some true := by
  intro b h w
  have hgd : get_depth_values cd n (PyVal.pfloat q) =
      tadd ⟨cd.shape, cd.dtype, fun i => cd.data i - (n : ℚ) / 2 * q⟩
        (scalarMulT q (arangeR cd.dtype n)) := rfl
  have hshape : broadcastShapes cd.shape [1, n, 1, 1] = some [B, n, H, W] := by
    rw [hcd]
    simp [broadcastShapes, bcastRev, bdim_one_left, bdim_one_right, bdim_self]
  have key := tadd_eq ⟨cd.shape, cd.dtype, fun i => cd.data i - (n : ℚ) / 2 * q⟩
    (scalarMulT q (arangeR cd.dtype n)) [B, n, H, W]
    (by simpa [scalarMulT, arangeR] using hshape)
  rw [hgd, key]
  simp only [Option.map_some', Option.some.injEq, decide_eq_true_eq,
    Tensor.bget, hcd, scalarMulT, arangeR, bcastIndex_four]
  have hn1 : n ≠ 1 := by omega
  rw [ite_one_dim n d (by omega), ite_one_dim n d' hd']
  norm_num
  have hdq : (d : ℚ) < (d' : ℚ) := by exact_mod_cast hdd
  nlinarith

/-- Claim C5 witness: concrete instance with interval 2 and n_depths = 5:
    consecutive depth values strictly increase. -/
theorem C5_get_depth_values_strict_mono_witness :
    (0 : ℚ) < 2 ∧
    (get_depth_values cdTen 5 (PyVal.pfloat 2)).map
        (fun t => decide (t.data [0, 0, 0, 0] < t.data [0, 1, 0, 0])) =
      some true :=
  ⟨by norm_num,
   C5_get_depth_values_strict_mono cdTen 1 1 1 5 2 rfl (by norm_num)
     (by omega) 0 1 (by omega) (by omega) 0 0 0⟩

/-- Claim C10: a scalar depth_interval that is not a Python float (here a
    Python int) is not treated as a scalar interval: the isinstance check
    fails and the subsequent access of depth_interval.ndim raises
    (AttributeError), so the call produces no result. -/
theorem C10_get_depth_values_int_interval_fails (cd : Tensor) (n : Nat)
    (z : ℤ) :
    get_depth_values cd n (PyVal.pint z) = none := rfl

/-- Claim C7 counterexample: the claim says an interval of rank outside
    the set containing 0, 2 and 3 is rejected, and that a leading-dimension
    mismatch is rejected; but a rank-4 interval of shape (1,1,1,1) and a
    rank-2 interval of shape (1,1) (leading dimension 1, batch size 2) are
    both accepted: the calls return a result. -/
theorem C7_get_depth_values_counterexample :
    (get_depth_values cdB2 3 (PyVal.ptensor tInt4)).isSome = true ∧
    (get_depth_values cdB2 3 (PyVal.ptensor tInt11)).isSome = true := by
  exact ⟨rfl, rfl⟩

/-- Claim C7 amended: get_depth_values performs no explicit rank or batch
    validation of a tensor depth_interval.  A rank-2 interval whose leading
    dimension differs from both the batch size and 1 fails (its broadcast
    with current_depth fails), but an interval of rank outside {0,2,3} is
    used unreshaped and the call succeeds whenever the shapes broadcast:
    in particular a (1,1,1,1) rank-4 interval and a (1,1) rank-2 interval
    are accepted. -/
theorem C7_get_depth_values_no_rank_validation (cd : Tensor) (B H W n : Nat)
    (hcd : cd.shape = [B, 1, H, W]) :
    (∀ t B2, t.shape = [B2, 1] → B2 ≠ B → B2 ≠ 1 → B ≠ 1 →
        get_depth_values cd n (PyVal.ptensor t) = none) ∧
    (∀ t, t.shape = [1, 1, 1, 1] →
        (get_depth_values cd n (PyVal.ptensor t)).isSome = true) ∧
    (∀ t, t.shape = [1, 1] →
        (get_depth_values cd n (PyVal.ptensor t)).isSome = true) := by
  have harange : (arangeR cd.dtype n).shape = [1, n, 1, 1] := rfl
  refine ⟨?_, ?_, ?_⟩
  · intro t B2 ht hne hne1 hBne1
    have hlen : t.shape.length = 2 := by rw [ht]; rfl
    have hnum : t.numel = B2 := by simp [Tensor.numel, ht]
    have hbc : broadcastShapes cd.shape [B2, 1, 1, 1] = none := by
      rw [hcd]
      have h1 : B ≠ B2 := Ne.symm hne
      simp [broadcastShapes, bcastRev, bdim, h1, hne1, hBne1]
    have hsub : tsub cd (scalarMulT ((n : ℚ) / 2)
        (reshape t [B2, 1, 1, 1])) = none := by
      unfold tsub ew
      simp [scalarMulT, reshape, hbc]
    simp [get_depth_values, hlen, hnum, hsub]
  · intro t ht
    have hlen : t.shape.length = 4 := by rw [ht]; rfl
    have hbc1 : broadcastShapes cd.shape t.shape = some [B, 1, H, W] := by
      rw [hcd, ht]
      simp [broadcastShapes, bcastRev, bdim_one_right, bdim_self]
    have hbc2 : broadcastShapes t.shape [1, n, 1, 1] = some [1, n, 1, 1] := by
      rw [ht]
      simp [broadcastShapes, bcastRev, bdim_one_left, bdim_self]
    have hsub := tsub_eq cd (scalarMulT ((n : ℚ) / 2) t) [B, 1, H, W]
      (by simpa [scalarMulT] using hbc1)
    have hmul := tmul_eq t (arangeR cd.dtype n) [1, n, 1, 1]
      (by simpa [arangeR] using hbc2)
    have hbc3 : broadcastShapes [B, 1, H, W] [1, n, 1, 1] =
        some [B, n, H, W] := by
      simp [broadcastShapes, bcastRev, bdim_one_left, bdim_one_right]
    simp only [get_depth_values, hlen, reduceCtorEq]
    norm_num
    rw [hsub, hmul]
    simp only [Option.some_bind]
    rw [tadd_eq _ _ [B, n, H, W] (by simpa using hbc3)]
    rfl
  · intro t ht
    have hlen : t.shape.length = 2 := by rw [ht]; rfl
    have hnum : t.numel = 1 := by simp [Tensor.numel, ht]
    have hbc1 : broadcastShapes cd.shape [1, 1, 1, 1] = some [B, 1, H, W] := by
      rw [hcd]
      simp [broadcastShapes, bcastRev, bdim_one_right, bdim_self]
    have hbc2 : broadcastShapes ([1, 1, 1, 1] : List Nat) [1, n, 1, 1] =
        some [1, n, 1, 1] := by
      simp [broadcastShapes, bcastRev, bdim_one_left, bdim_self]
    have hsub := tsub_eq cd (scalarMulT ((n : ℚ) / 2)
      (reshape t [1, 1, 1, 1])) [B, 1, H, W]
      (by simpa [scalarMulT, reshape] using hbc1)
    have hmul := tmul_eq (reshape t [1, 1, 1, 1]) (arangeR cd.dtype n)
      [1, n, 1, 1] (by simpa [reshape, arangeR] using hbc2)
    have hbc3 : broadcastShapes [B, 1, H, W] [1, n, 1, 1] =
        some [B, n, H, W] := by
      simp [broadcastShapes, bcastRev, bdim_one_left, bdim_one_right]
    simp only [get_depth_values, hlen, hnum]
    norm_num
    rw [hsub, hmul]
    simp only [Option.some_bind]
    rw [tadd_eq _ _ [B, n, H, W] (by simpa using hbc3)]
    rfl

/-- Claim C7 witness: concrete instances of the amended claim: with batch
    size 2, a (3,1) interval fails, while (1,1,1,1) and (1,1) intervals
    are accepted. -/
theorem C7_get_depth_values_no_rank_validation_witness :
    tInt31.shape = [3, 1] ∧
    get_depth_values cdB2 4 (PyVal.ptensor tInt31) = none ∧
    (get_depth_values cdB2 4 (PyVal.ptensor tInt4)).isSome = true ∧
    (get_depth_values cdB2 4 (PyVal.ptensor tInt11)).isSome = true :=
  ⟨rfl,
   (C7_get_depth_values_no_rank_validation cdB2 2 1 1 4 rfl).1 tInt31 3 rfl
     (by decide) (by decide) (by decide),
   (C7_get_depth_values_no_rank_validation cdB2 2 1 1 4 rfl).2.1 tInt4 rfl,
   (C7_get_depth_values_no_rank_validation cdB2 2 1 1 4 rfl).2.2 tInt11 rfl⟩

/-- Claim C8 counterexample: a rank-3 depth_values of shape (2,1,1) that
    is broadcast-compatible with p of shape (1,2,1,1) is silently computed
    with: the call returns a result instead of being rejected. -/
theorem C8_depth_regression_counterexample :
    dvRank3.shape.length = 3 ∧
    (depth_regression pOneHot dvRank3).isSome = true := by
  exact ⟨rfl, rfl⟩

/-- Claim C8 amended: depth_regression reshapes only rank ≤ 2
    depth_values; any higher-rank depth_values (including rank 3) is used
    as-is, and the call fails exactly when p and the possibly reshaped
    depth_values are not broadcast-compatible. -/
theorem C8_depth_regression_failure_iff (p dv : Tensor) :
    depth_regression p dv = none ↔
      broadcastShapes p.shape
          (if dv.shape.length ≤ 2 then dv.shape ++ [1, 1] else dv.shape) =
        none := by
  by_cases h : dv.shape.length ≤ 2 <;>
    simp [depth_regression, h, tmul, ew, reshape, Option.map_eq_none']

/-- Evaluation of depth_regression once the reshaped depth_values and the
    broadcast shape are known. -/
theorem depth_regression_eval (p dv dvv : Tensor)
    (hdvv : (if dv.shape.length ≤ 2 then reshape dv (dv.shape ++ [1, 1])
             else dv) = dvv)
    (B D H W : Nat)
    (hbc : broadcastShapes p.shape dvv.shape = some [B, D, H, W]) :
    depth_regression p dv =
      some (castTo (sumDim1 ⟨[B, D, H, W], promote p.dtype dvv.dtype,
        fun idx => p.bget idx * dvv.bget idx⟩) dvv.dtype) := by
  unfold depth_regression
  simp only [hdvv]
  rw [tmul_eq p dvv [B, D, H, W] hbc]
  rfl

/-- Claim C3: for a probability volume p of shape (B,D,H,W) and
    depth_values of shape (B,D,H,W), or of rank at most 2 in its intended
    broadcastable forms (D) and (B,D), depth_regression returns a (B,H,W)
    map with depth_values' dtype, equal at every pixel to the sum over the
    depth axis of p times the (possibly reshaped and broadcast)
    depth_values; for a one-hot p this selects the corresponding depth. -/
theorem C3_depth_regression_spec (p dv : Tensor) (B D H W : Nat)
    (hp : p.shape = [B, D, H, W])
    (hdv : dv.shape = [B, D, H, W] ∨ dv.shape = [D] ∨ dv.shape = [B, D]) :
    (depth_regression p dv).map Tensor.shape = some [B, H, W] ∧
    (depth_regression p dv).map Tensor.dtype = some dv.dtype ∧
    ∀ b ∈ Finset.range B, ∀ h ∈ Finset.range H, ∀ w ∈ Finset.range W,
      (depth_regression p dv).map (fun t => t.data [b, h, w]) =
        some (∑ i in Finset.range D,
          p.data [b, i, h, w] *
            (if dv.shape.length ≤ 2 then reshape dv (dv.shape ++ [1, 1])
             else dv).bget [b, i, h, w]) := by
  have main : ∀ dvv : Tensor,
      (if dv.shape.length ≤ 2 then reshape dv (dv.shape ++ [1, 1])
       else dv) = dvv →
      dvv.dtype = dv.dtype →
      broadcastShapes p.shape dvv.shape = some [B, D, H, W] →
      (depth_regression p dv).map Tensor.shape = some [B, H, W] ∧
      (depth_regression p dv).map Tensor.dtype = some dv.dtype ∧
      ∀ b ∈ Finset.range B, ∀ h ∈ Finset.range H, ∀ w ∈ Finset.range W,
        (depth_regression p dv).map (fun t => t.data [b, h, w]) =
          some (∑ i in Finset.range D,
            p.data [b, i, h, w] * dvv.bget [b, i, h, w]) := by
    intro dvv hdvv hdt hbc
    have heval := depth_regression_eval p dv dvv hdvv B D H W hbc
    refine ⟨?_, ?_, ?_⟩
    · rw [heval]; rfl
    · rw [heval, hdt]; rfl
    · intro b hb h hh w hw
      simp only [Finset.mem_range] at hb hh hw
      rw [heval]
      simp only [Option.map_some', Option.some.injEq, castTo, sumDim1]
      refine Finset.sum_congr rfl ?_
      intro i hi
      simp only [Finset.mem_range] at hi
      have : p.bget [b, i, h, w] = p.data [b, i, h, w] := by
        simp only [Tensor.bget, hp, bcastIndex_four]
        rw [ite_one_dim B b hb, ite_one_dim D i hi, ite_one_dim H h hh,
          ite_one_dim W w hw]
      rw [this]
  rcases hdv with h4 | h1 | h2
  · have hlen : ¬ dv.shape.length ≤ 2 := by rw [h4]; norm_num
    have hdvv : (if dv.shape.length ≤ 2 then
        reshape dv (dv.shape ++ [1, 1]) else dv) = dv := by
      rw [if_neg hlen]
    have hbc : broadcastShapes p.shape dv.shape = some [B, D, H, W] := by
      rw [hp, h4]
      simp [broadcastShapes, bcastRev, bdim_self]
    simpa [hdvv] using main dv hdvv rfl hbc
  · have hlen : dv.shape.length ≤ 2 := by rw [h1]; norm_num
    have hdvv : (if dv.shape.length ≤ 2 then
        reshape dv (dv.shape ++ [1, 1]) else dv) =
        reshape dv [D, 1, 1] := by
      rw [if_pos hlen, h1]
      rfl
    have hbc : broadcastShapes p.shape (reshape dv [D, 1, 1]).shape =
        some [B, D, H, W] := by
      rw [hp]
      simp [reshape, broadcastShapes, bcastRev, bdim_self, bdim_one_right]
    simpa [hdvv] using main (reshape dv [D, 1, 1]) hdvv rfl hbc
  · have hlen : dv.shape.length ≤ 2 := by rw [h2]; norm_num
    have hdvv : (if dv.shape.length ≤ 2 then
        reshape dv (dv.shape ++ [1, 1]) else dv) =
        reshape dv [B, D, 1, 1] := by
      rw [if_pos hlen, h2]
      rfl
    have hbc : broadcastShapes p.shape (reshape dv [B, D, 1, 1]).shape =
        some [B, D, H, W] := by
      rw [hp]
      simp [reshape, broadcastShapes, bcastRev, bdim_self, bdim_one_right]
    simpa [hdvv] using main (reshape dv [B, D, 1, 1]) hdvv rfl hbc

/-- Claim C3 witness: p one-hot at depth index 1 over two hypotheses with
    values 5 and 6 regresses exactly to 6. -/
theorem C3_depth_regression_spec_witness :
    pOneHot.shape = [1, 2, 1, 1] ∧
    (depth_regression pOneHot dvSeq).map (fun t => t.data [0, 0, 0]) =
      some (∑ i in Finset.range 2,
        pOneHot.data [0, i, 0, 0] *
          (if dvSeq.shape.length ≤ 2 then
            reshape dvSeq (dvSeq.shape ++ [1, 1]) else dvSeq).bget
            [0, i, 0, 0]) ∧
    (∑ i in Finset.range 2,
        pOneHot.data [0, i, 0, 0] *
          (if dvSeq.shape.length ≤ 2 then
            reshape dvSeq (dvSeq.shape ++ [1, 1]) else dvSeq).bget
            [0, i, 0, 0]) = 6 :=
  ⟨rfl,
   (C3_depth_regression_spec pOneHot dvSeq 1 2 1 1 rfl
      (Or.inr (Or.inl rfl))).2.2 0 (by decide) 0 (by decide) 0 (by decide),
   by
    simp [Finset.sum_range_succ, pOneHot, dvSeq, reshape, Tensor.bget,
      bcastIndex, unflatten, flatIndex]
    norm_num⟩

theorem convOut_one (n : Nat) : convOut n 1 1 0 = n := by
  simp [convOut]

/-- Evaluation of conv3d on a 5-dimensional input of matching channels. -/
theorem conv3d_eval (wgt : Nat → Nat → Nat → Nat → Nat → ℚ)
    (Cin Cout k stride pad : Nat) (x : Tensor) (B D H W : Nat)
    (hx : x.shape = [B, Cin, D, H, W]) :
    conv3d wgt Cin Cout k stride pad x =
      some ⟨[B, Cout, convOut D k stride pad, convOut H k stride pad,
             convOut W k stride pad], x.dtype,
            conv3dData wgt Cin k stride pad x D H W⟩ := by
  simp only [conv3d, hx, if_true]

/-- Claim C4: for x of shape (B,C,D,H,W) matching the configured channel
    count and shape-preserving norm_act stages, AttentionBranch.forward
    computes attention = conv2(conv1(x)) of shape (B,1,D,H,W) and returns
    x * (attention + 1); the output has exactly the input's shape, and
    whenever the attention map is exactly 0 everywhere the output equals
    the input exactly. -/
theorem C4_attention_branch_spec (Cc : Nat)
    (w1 w2 : Nat → Nat → Nat → Nat → Nat → ℚ) (na1 na2 : Tensor → Tensor)
    (hna1 : ∀ t, (na1 t).shape = t.shape)
    (hna2 : ∀ t, (na2 t).shape = t.shape)
    (x : Tensor) (B D H W : Nat) (hx : x.shape = [B, Cc, D, H, W]) :
    (((AttentionBranch.init Cc w1 w2 na1 na2).conv1.forward x).bind
        (AttentionBranch.init Cc w1 w2 na1 na2).conv2.forward).map
        Tensor.shape = some [B, 1, D, H, W] ∧
    ((AttentionBranch.init Cc w1 w2 na1 na2).forward x).map Tensor.shape =
      some [B, Cc, D, H, W] ∧
    (∀ b ∈ Finset.range B, ∀ c ∈ Finset.range Cc, ∀ d ∈ Finset.range D,
      ∀ h ∈ Finset.range H, ∀ w ∈ Finset.range W,
      ((AttentionBranch.init Cc w1 w2 na1 na2).forward x).map
          (fun t => t.data [b, c, d, h, w]) =
        (((AttentionBranch.init Cc w1 w2 na1 na2).conv1.forward x).bind
            (AttentionBranch.init Cc w1 w2 na1 na2).conv2.forward).map
          (fun a => x.data [b, c, d, h, w] * (a.data [b, 0, d, h, w] + 1))) ∧
    ((∀ b ∈ Finset.range B, ∀ d ∈ Finset.range D, ∀ h ∈ Finset.range H,
        ∀ w ∈ Finset.range W,
        (((AttentionBranch.init Cc w1 w2 na1 na2).conv1.forward x).bind
            (AttentionBranch.init Cc w1 w2 na1 na2).conv2.forward).map
          (fun a => a.data [b, 0, d, h, w]) = some 0) →
      ∀ b ∈ Finset.range B, ∀ c ∈ Finset.range Cc, ∀ d ∈ Finset.range D,
        ∀ h ∈ Finset.range H, ∀ w ∈ Finset.range W,
        ((AttentionBranch.init Cc w1 w2 na1 na2).forward x).map
            (fun t => t.data [b, c, d, h, w]) =
          some (x.data [b, c, d, h, w])) := by
  have hc1 : (AttentionBranch.init Cc w1 w2 na1 na2).conv1.forward x =
      some (na1 ⟨[B, 1, D, H, W], x.dtype,
        conv3dData w1 Cc 1 1 0 x D H W⟩) := by
    have := conv3d_eval w1 Cc 1 1 1 0 x B D H W hx
    simp only [AttentionBranch.init, ConvBnReLU3D.forward, this, convOut_one,
      Option.map_some']
  set T1 : Tensor := ⟨[B, 1, D, H, W], x.dtype,
    conv3dData w1 Cc 1 1 0 x D H W⟩ with hT1
  have hshape1 : (na1 T1).shape = [B, 1, D, H, W] := by rw [hna1]
  have hc2 : (AttentionBranch.init Cc w1 w2 na1 na2).conv2.forward (na1 T1) =
      some (na2 ⟨[B, 1, D, H, W], (na1 T1).dtype,
        conv3dData w2 1 1 1 0 (na1 T1) D H W⟩) := by
    have := conv3d_eval w2 1 1 1 1 0 (na1 T1) B D H W hshape1
    simp only [AttentionBranch.init, ConvBnReLU3D.forward, this, convOut_one,
      Option.map_some']
  set T2 : Tensor := ⟨[B, 1, D, H, W], (na1 T1).dtype,
    conv3dData w2 1 1 1 0 (na1 T1) D H W⟩ with hT2
  have hatt : ((AttentionBranch.init Cc w1 w2 na1 na2).conv1.forward x).bind
      (AttentionBranch.init Cc w1 w2 na1 na2).conv2.forward =
      some (na2 T2) := by
    rw [hc1, Option.some_bind, hc2]
  have hshape2 : (na2 T2).shape = [B, 1, D, H, W] := by rw [hna2]
  have hbc : broadcastShapes x.shape (addScalar (na2 T2) 1).shape =
      some [B, Cc, D, H, W] := by
    have : (addScalar (na2 T2) 1).shape = [B, 1, D, H, W] := by
      simp [addScalar, hshape2]
    rw [hx, this]
    simp [broadcastShapes, bcastRev, bdim_self, bdim_one_right]
  have hfwd : (AttentionBranch.init Cc w1 w2 na1 na2).forward x =
      some ⟨[B, Cc, D, H, W], promote x.dtype (addScalar (na2 T2) 1).dtype,
        fun idx => x.bget idx * (addScalar (na2 T2) 1).bget idx⟩ := by
    unfold AttentionBranch.forward
    rw [hc1, Option.some_bind, hc2, Option.some_bind]
    exact tmul_eq x (addScalar (na2 T2) 1) [B, Cc, D, H, W] hbc
  have hpoint : ∀ b ∈ Finset.range B, ∀ c ∈ Finset.range Cc,
      ∀ d ∈ Finset.range D, ∀ h ∈ Finset.range H, ∀ w ∈ Finset.range W,
      ((AttentionBranch.init Cc w1 w2 na1 na2).forward x).map
          (fun t => t.data [b, c, d, h, w]) =
        some (x.data [b, c, d, h, w] *
          ((na2 T2).data [b, 0, d, h, w] + 1)) := by
    intro b hb c hc d hd h hh w hw
    simp only [Finset.mem_range] at hb hc hd hh hw
    rw [hfwd]
    simp only [Option.map_some', Option.some.injEq]
    have hxg : x.bget [b, c, d, h, w] = x.data [b, c, d, h, w] := by
      simp only [Tensor.bget, hx, bcastIndex_five]
      rw [ite_one_dim B b hb, ite_one_dim Cc c hc, ite_one_dim D d hd,
        ite_one_dim H h hh, ite_one_dim W w hw]
    have hag : (addScalar (na2 T2) 1).bget [b, c, d, h, w] =
        (na2 T2).data [b, 0, d, h, w] + 1 := by
      have hsh : (addScalar (na2 T2) 1).shape = [B, 1, D, H, W] := by
        simp [addScalar, hshape2]
      simp only [Tensor.bget, hsh, bcastIndex_five]
      rw [ite_one_dim B b hb, ite_one_dim D d hd, ite_one_dim H h hh,
        ite_one_dim W w hw]
      simp [addScalar]
    rw [hxg, hag]
  refine ⟨?_, ?_, ?_, ?_⟩
  · rw [hatt]
    simp only [Option.map_some', hshape2]
  · rw [hfwd]
    rfl
  · intro b hb c hc d hd h hh w hw
    rw [hpoint b hb c hc d hd h hh w hw, hatt]
    rfl
  · intro hz b hb c hc d hd h hh w hw
    have := hz b hb d hd h hh w hw
    rw [hatt] at this
    simp only [Option.map_some', Option.some.injEq] at this
    rw [hpoint b hb c hc d hd h hh w hw, this]
    norm_num

/-- Claim C4 witness: with zero convolution weights and identity norm
    stages on a constant input, the attention map is 0 and the output
    equals the input exactly. -/
theorem C4_attention_branch_spec_witness :
    xAtt.shape = [1, 1, 1, 1, 1] ∧
    ((AttentionBranch.init 1 wZero wZero id id).forward xAtt).map
        Tensor.shape = some [1, 1, 1, 1, 1] ∧
    ((AttentionBranch.init 1 wZero wZero id id).forward xAtt).map
        (fun t => t.data [0, 0, 0, 0, 0]) =
      some (xAtt.data [0, 0, 0, 0, 0]) := by
  have spec := C4_attention_branch_spec 1 wZero wZero id id
    (fun _ => rfl) (fun _ => rfl) xAtt 1 1 1 1 rfl
  have hz : ∀ b ∈ Finset.range 1, ∀ d ∈ Finset.range 1,
      ∀ h ∈ Finset.range 1, ∀ w ∈ Finset.range 1,
      (((AttentionBranch.init 1 wZero wZero id id).conv1.forward xAtt).bind
          (AttentionBranch.init 1 wZero wZero id id).conv2.forward).map
        (fun a => a.data [b, 0, d, h, w]) = some 0 := by
    intro b _ d _ h _ w _
    have hc1 := conv3d_eval wZero 1 1 1 1 0 xAtt 1 1 1 1 rfl
    simp only [AttentionBranch.init, ConvBnReLU3D.forward, hc1,
      Option.map_some', id_eq, Option.some_bind]
    have hc2 := conv3d_eval wZero 1 1 1 1 0
      (⟨[1, 1, convOut 1 1 1 0, convOut 1 1 1 0, convOut 1 1 1 0],
        xAtt.dtype, conv3dData wZero 1 1 1 0 xAtt 1 1 1⟩ : Tensor)
      1 1 1 1 (by simp [convOut_one])
    simp only [hc2, Option.map_some', id_eq, Option.some.injEq]
    simp [conv3dData, wZero]
  exact ⟨rfl, spec.2.1, spec.2.2.2 hz 0 (by decide) 0 (by decide) 0 (by decide)
    0 (by decide) 0 (by decide)⟩

theorem pixel_lt (Hh Ww h w : Nat) (hh : h < Hh) (hw : w < Ww) :
    h * Ww + w < Hh * Ww := by
  calc h * Ww + w < h * Ww + Ww := by omega
  _ = (h + 1) * Ww := by ring
  _ ≤ Hh * Ww := Nat.mul_le_mul_right _ (by omega)

theorem pixel_index_decomp (Hh Ww h w d : Nat) (hh : h < Hh) (hw : w < Ww) :
    (d * (Hh * Ww) + (h * Ww + w)) % (Hh * Ww) = h * Ww + w ∧
    (h * Ww + w) % Ww = w ∧ (h * Ww + w) / Ww = h := by
  refine ⟨?_, ?_, ?_⟩
  · rw [Nat.mul_comm d (Hh * Ww), Nat.mul_add_mod]
    exact Nat.mod_eq_of_lt (pixel_lt Hh Ww h w hh hw)
  · rw [Nat.mul_comm h Ww, Nat.mul_add_mod]
    exact Nat.mod_eq_of_lt hw
  · rw [Nat.mul_comm h Ww, Nat.mul_add_div (by omega), Nat.div_eq_of_lt hw]
    omega

/-- With align_corners, a normalized coordinate that unnormalizes to the
    exact integer pixel (h, w) samples exactly that pixel. -/
theorem grid_sample_at_exact (feat : List Nat → ℚ) (Hh Ww : Nat)
    (b c h w : Nat) (hh : h < Hh) (hw : w < Ww) (hH : 2 ≤ Hh) (hW : 2 ≤ Ww) :
    grid_sample_point feat Hh Ww b c
      ((w : ℚ) / (((Ww : ℚ) - 1) / 2) - 1)
      ((h : ℚ) / (((Hh : ℚ) - 1) / 2) - 1) = feat [b, c, h, w] := by
  have hW2 : (2 : ℚ) ≤ (Ww : ℚ) := by exact_mod_cast hW
  have hH2 : (2 : ℚ) ≤ (Hh : ℚ) := by exact_mod_cast hH
  have hWq : ((Ww : ℚ) - 1) ≠ 0 := by
    have : (1 : ℚ) < (Ww : ℚ) := by linarith
    exact sub_ne_zero.mpr (ne_of_gt this)
  have hHq : ((Hh : ℚ) - 1) ≠ 0 := by
    have : (1 : ℚ) < (Hh : ℚ) := by linarith
    exact sub_ne_zero.mpr (ne_of_gt this)
  have hix : ((w : ℚ) / (((Ww : ℚ) - 1) / 2) - 1 + 1) * ((Ww : ℚ) - 1) / 2 =
      (w : ℚ) := by
    field_simp
  have hiy : ((h : ℚ) / (((Hh : ℚ) - 1) / 2) - 1 + 1) * ((Hh : ℚ) - 1) / 2 =
      (h : ℚ) := by
    field_simp
  have hwz : (0 : ℤ) ≤ (w : ℤ) := Int.natCast_nonneg w
  have hwW : (w : ℤ) < (Ww : ℤ) := by exact_mod_cast hw
  have hhz : (0 : ℤ) ≤ (h : ℤ) := Int.natCast_nonneg h
  have hhH : (h : ℤ) < (Hh : ℤ) := by exact_mod_cast hh
  simp only [grid_sample_point]
  rw [hix, hiy, Int.floor_natCast, Int.floor_natCast]
  simp only [Int.cast_natCast, sub_self, sub_zero, zero_mul, mul_zero,
    add_zero, mul_one, one_mul]
  simp [pixRead, hwz, hwW, hhz, hhH]

/-- Claim C2: when proj_mat is the identity transform (R = I, T = 0) and
    all depth values are positive, homo_warp reproduces src_feat at every
    depth hypothesis (non-degenerate grids, H, W at least 2). -/
theorem C2_homo_warp_identity (sf pm dv : Tensor) (B C D Hh Ww : Nat)
    (hsf : sf.shape = [B, C, Hh, Ww]) (hdv : dv.shape = [B, D, Hh, Ww])
    (hpm : ∀ b ∈ Finset.range B, ∀ i ∈ Finset.range 3, ∀ j ∈ Finset.range 4,
      pm.data [b, i, j] = if j = i then 1 else 0)
    (hpos : ∀ b ∈ Finset.range B, ∀ d ∈ Finset.range D,
      ∀ h ∈ Finset.range Hh, ∀ w ∈ Finset.range Ww,
      0 < dv.data [b, d, h, w])
    (hH : 2 ≤ Hh) (hW : 2 ≤ Ww) :
    (homo_warp sf pm dv).shape = [B, C, D, Hh, Ww] ∧
    ∀ b ∈ Finset.range B, ∀ c ∈ Finset.range C, ∀ d ∈ Finset.range D,
      ∀ h ∈ Finset.range Hh, ∀ w ∈ Finset.range Ww,
      (homo_warp sf pm dv).data [b, c, d, h, w] = sf.data [b, c, h, w] := by
  have heval : homo_warp sf pm dv =
      ⟨[B, C, dv.shape.getD 1 0, Hh, Ww], sf.dtype,
        homoWarpData sf pm dv Hh Ww⟩ := by
    simp only [homo_warp, hsf]
  constructor
  · rw [heval, hdv]
    rfl
  · intro b hb c hc d hd h hh w hw
    have hhn : h < Hh := Finset.mem_range.mp hh
    have hwn : w < Ww := Finset.mem_range.mp hw
    have hq := pixel_index_decomp Hh Ww h w d hhn hwn
    have hrg0 : refGridD Ww (Hh * Ww) 0 (d * (Hh * Ww) + (h * Ww + w)) =
        (w : ℚ) := by
      simp only [refGridD, hq.1, refGrid]
      norm_num [hq.2.1]
    have hrg1 : refGridD Ww (Hh * Ww) 1 (d * (Hh * Ww) + (h * Ww + w)) =
        (h : ℚ) := by
      simp only [refGridD, hq.1, refGrid]
      norm_num [hq.2.2]
    have hrg2 : refGridD Ww (Hh * Ww) 2 (d * (Hh * Ww) + (h * Ww + w)) = 1 := by
      simp [refGridD, refGrid]
    have hrow : ∀ i ∈ Finset.range 3,
        srcGridD pm dv Hh Ww b i (d * (Hh * Ww) + (h * Ww + w)) =
          refGridD Ww (Hh * Ww) i (d * (Hh * Ww) + (h * Ww + w)) := by
      intro i hi
      simp only [srcGridD, Finset.sum_range_succ, Finset.sum_range_zero]
      rw [hpm b hb i hi 0 (by decide), hpm b hb i hi 1 (by decide),
        hpm b hb i hi 2 (by decide), hpm b hb i hi 3 (by decide)]
      have hi3 : i < 3 := Finset.mem_range.mp hi
      interval_cases i <;> norm_num
    have h0 : srcGridD pm dv Hh Ww b 0 (d * (Hh * Ww) + (h * Ww + w)) =
        (w : ℚ) := by
      rw [hrow 0 (by decide), hrg0]
    have h1 : srcGridD pm dv Hh Ww b 1 (d * (Hh * Ww) + (h * Ww + w)) =
        (h : ℚ) := by
      rw [hrow 1 (by decide), hrg1]
    have h2 : srcGridD pm dv Hh Ww b 2 (d * (Hh * Ww) + (h * Ww + w)) = 1 := by
      rw [hrow 2 (by decide), hrg2]
    have hn0 : srcGridNorm pm dv Hh Ww b 0 (d * (Hh * Ww) + (h * Ww + w)) =
        (w : ℚ) / (((Ww : ℚ) - 1) / 2) - 1 := by
      simp only [srcGridNorm, srcGridP]
      norm_num [h0, h2]
    have hn1 : srcGridNorm pm dv Hh Ww b 1 (d * (Hh * Ww) + (h * Ww + w)) =
        (h : ℚ) / (((Hh : ℚ) - 1) / 2) - 1 := by
      simp only [srcGridNorm, srcGridP]
      norm_num [h1, h2]
    rw [heval]
    show homoWarpData sf pm dv Hh Ww [b, c, d, h, w] = sf.data [b, c, h, w]
    simp only [homoWarpData]
    rw [hn0, hn1]
    exact grid_sample_at_exact sf.data Hh Ww b c h w hhn hwn hH hW

/-- Claim C2 witness: the identity projection on a concrete 2x2 feature
    map with distinct pixel values reproduces the map at depth 0. -/
theorem C2_homo_warp_identity_witness :
    (2 : Nat) ≤ 2 ∧
    (homo_warp sfNum pmId dvOne).data [0, 0, 0, 1, 1] =
      sfNum.data [0, 0, 1, 1] :=
  ⟨by norm_num,
   (C2_homo_warp_identity sfNum pmId dvOne 1 1 1 2 2 rfl rfl
      (by
        intro b hb i hi j hj
        fin_cases hb
        fin_cases hi <;> fin_cases hj <;> norm_num [pmId])
      (by
        intro b _ d _ h _ w _
        norm_num [dvOne])
      (by norm_num) (by norm_num)).2 0 (by decide) 0 (by decide) 0 (by decide)
      1 (by decide) 1 (by decide)⟩

/-- A bilinear grid sample whose unnormalized source coordinate lies at
    least one pixel outside the image (at or beyond -1, or at or beyond
    the image size) evaluates to 0 under zeros padding. -/
theorem grid_sample_zero_of_far (feat : List Nat → ℚ) (Hh Ww : Nat)
    (b c : Nat) (x y : ℚ)
    (hfar : (x + 1) * ((Ww : ℚ) - 1) / 2 ≤ -1 ∨
        (Ww : ℚ) ≤ (x + 1) * ((Ww : ℚ) - 1) / 2 ∨
        (y + 1) * ((Hh : ℚ) - 1) / 2 ≤ -1 ∨
        (Hh : ℚ) ≤ (y + 1) * ((Hh : ℚ) - 1) / 2) :
    grid_sample_point feat Hh Ww b c x y = 0 := by
  simp only [grid_sample_point]
  rcases hfar with hc | hc | hc | hc
  · rcases lt_or_eq_of_le hc with hlt | heq
    · have hfl : Int.floor ((x + 1) * ((Ww : ℚ) - 1) / 2) ≤ -2 := by
        have h1 : Int.floor ((x + 1) * ((Ww : ℚ) - 1) / 2) < -1 := by
          rw [Int.floor_lt]
          push_cast
          linarith
        omega
      have hp0 : ∀ yi, pixRead feat Hh Ww b c yi
          (Int.floor ((x + 1) * ((Ww : ℚ) - 1) / 2)) = 0 := by
        intro yi
        simp only [pixRead]
        rw [if_neg]
        rintro ⟨h1, -⟩
        omega
      have hp1 : ∀ yi, pixRead feat Hh Ww b c yi
          (Int.floor ((x + 1) * ((Ww : ℚ) - 1) / 2) + 1) = 0 := by
        intro yi
        simp only [pixRead]
        rw [if_neg]
        rintro ⟨h1, -⟩
        omega
      simp only [hp0, hp1]
      ring
    · rw [heq]
      have hfl : Int.floor ((-1 : ℚ)) = -1 := by
        norm_num [Int.floor_eq_iff]
      rw [hfl]
      have hp0 : ∀ yi, pixRead feat Hh Ww b c yi (-1) = 0 := by
        intro yi
        simp only [pixRead]
        rw [if_neg]
        rintro ⟨h1, -⟩
        omega
      simp only [hp0]
      push_cast
      ring
  · have hfl : (Ww : ℤ) ≤ Int.floor ((x + 1) * ((Ww : ℚ) - 1) / 2) := by
      rw [Int.le_floor]
      push_cast
      linarith
    have hp0 : ∀ yi, pixRead feat Hh Ww b c yi
        (Int.floor ((x + 1) * ((Ww : ℚ) - 1) / 2)) = 0 := by
      intro yi
      simp only [pixRead]
      rw [if_neg]
      rintro ⟨-, h2, -⟩
      omega
    have hp1 : ∀ yi, pixRead feat Hh Ww b c yi
        (Int.floor ((x + 1) * ((Ww : ℚ) - 1) / 2) + 1) = 0 := by
      intro yi
      simp only [pixRead]
      rw [if_neg]
      rintro ⟨-, h2, -⟩
      omega
    simp only [hp0, hp1]
    ring
  · rcases lt_or_eq_of_le hc with hlt | heq
    · have hfl : Int.floor ((y + 1) * ((Hh : ℚ) - 1) / 2) ≤ -2 := by
        have h1 : Int.floor ((y + 1) * ((Hh : ℚ) - 1) / 2) < -1 := by
          rw [Int.floor_lt]
          push_cast
          linarith
        omega
      have hp0 : ∀ xi, pixRead feat Hh Ww b c
          (Int.floor ((y + 1) * ((Hh : ℚ) - 1) / 2)) xi = 0 := by
        intro xi
        simp only [pixRead]
        rw [if_neg]
        rintro ⟨-, -, h3, -⟩
        omega
      have hp1 : ∀ xi, pixRead feat Hh Ww b c
          (Int.floor ((y + 1) * ((Hh : ℚ) - 1) / 2) + 1) xi = 0 := by
        intro xi
        simp only [pixRead]
        rw [if_neg]
        rintro ⟨-, -, h3, -⟩
        omega
      simp only [hp0, hp1]
      ring
    · rw [heq]
      have hfl : Int.floor ((-1 : ℚ)) = -1 := by
        norm_num [Int.floor_eq_iff]
      rw [hfl]
      have hp0 : ∀ xi, pixRead feat Hh Ww b c (-1) xi = 0 := by
        intro xi
        simp only [pixRead]
        rw [if_neg]
        rintro ⟨-, -, h3, -⟩
        omega
      simp only [hp0]
      push_cast
      ring
  · have hfl : (Hh : ℤ) ≤ Int.floor ((y + 1) * ((Hh : ℚ) - 1) / 2) := by
      rw [Int.le_floor]
      push_cast
      linarith
    have hp0 : ∀ xi, pixRead feat Hh Ww b c
        (Int.floor ((y + 1) * ((Hh : ℚ) - 1) / 2)) xi = 0 := by
      intro xi
      simp only [pixRead]
      rw [if_neg]
      rintro ⟨-, -, -, h4⟩
      omega
    have hp1 : ∀ xi, pixRead feat Hh Ww b c
        (Int.floor ((y + 1) * ((Hh : ℚ) - 1) / 2) + 1) xi = 0 := by
      intro xi
      simp only [pixRead]
      rw [if_neg]
      rintro ⟨-, -, -, h4⟩
      omega
    simp only [hp0, hp1]
    ring

/-- Claim C6 amended: a depth slice of homo_warp is all zeros when every
    reference pixel's normalized source coordinate lies outside [-1,1] by
    a margin of at least 2/(side-1) in the offending component (one full
    pixel beyond the border); coordinates outside [-1,1] but within one
    pixel of the border still receive bilinear weight from the border
    pixel, so out-of-frame samples are zero-filled and no error is
    raised. -/
theorem C6_homo_warp_far_outside_zero (sf pm dv : Tensor) (B C D Hh Ww : Nat)
    (hsf : sf.shape = [B, C, Hh, Ww]) (hdv : dv.shape = [B, D, Hh, Ww])
    (hH : 2 ≤ Hh) (hW : 2 ≤ Ww) (d : Nat) (hd : d ∈ Finset.range D)
    (hout : ∀ b ∈ Finset.range B, ∀ p ∈ Finset.range (Hh * Ww),
      srcGridNorm pm dv Hh Ww b 0 (d * (Hh * Ww) + p) ≤
          -1 - 2 / ((Ww : ℚ) - 1) ∨
      1 + 2 / ((Ww : ℚ) - 1) ≤ srcGridNorm pm dv Hh Ww b 0
          (d * (Hh * Ww) + p) ∨
      srcGridNorm pm dv Hh Ww b 1 (d * (Hh * Ww) + p) ≤
          -1 - 2 / ((Hh : ℚ) - 1) ∨
      1 + 2 / ((Hh : ℚ) - 1) ≤ srcGridNorm pm dv Hh Ww b 1
          (d * (Hh * Ww) + p)) :
    ∀ b ∈ Finset.range B, ∀ c ∈ Finset.range C, ∀ h ∈ Finset.range Hh,
      ∀ w ∈ Finset.range Ww,
      (homo_warp sf pm dv).data [b, c, d, h, w] = 0 := by
  intro b hb c hc h hh w hw
  have heval : homo_warp sf pm dv =
      ⟨[B, C, dv.shape.getD 1 0, Hh, Ww], sf.dtype,
        homoWarpData sf pm dv Hh Ww⟩ := by
    simp only [homo_warp, hsf]
  rw [heval]
  show homoWarpData sf pm dv Hh Ww [b, c, d, h, w] = 0
  simp only [homoWarpData]
  have hhn : h < Hh := Finset.mem_range.mp hh
  have hwn : w < Ww := Finset.mem_range.mp hw
  have hp : h * Ww + w ∈ Finset.range (Hh * Ww) :=
    Finset.mem_range.mpr (pixel_lt Hh Ww h w hhn hwn)
  have hcond := hout b hb (h * Ww + w) hp
  have hW2 : (2 : ℚ) ≤ (Ww : ℚ) := by exact_mod_cast hW
  have hH2 : (2 : ℚ) ≤ (Hh : ℚ) := by exact_mod_cast hH
  have hWq : (0 : ℚ) < (Ww : ℚ) - 1 := by linarith
  have hHq : (0 : ℚ) < (Hh : ℚ) - 1 := by linarith
  apply grid_sample_zero_of_far
  rcases hcond with hc1 | hc1 | hc1 | hc1
  · left
    have h1 : srcGridNorm pm dv Hh Ww b 0 (d * (Hh * Ww) + (h * Ww + w)) + 1 ≤
        -(2 / ((Ww : ℚ) - 1)) := by linarith
    have h2 := mul_le_mul_of_nonneg_right h1 (le_of_lt hWq)
    have h3 : -(2 / ((Ww : ℚ) - 1)) * ((Ww : ℚ) - 1) = -2 := by
      field_simp
    rw [h3] at h2
    linarith
  · right; left
    have h1 : 2 + 2 / ((Ww : ℚ) - 1) ≤
        srcGridNorm pm dv Hh Ww b 0 (d * (Hh * Ww) + (h * Ww + w)) + 1 := by
      linarith
    have h2 := mul_le_mul_of_nonneg_right h1 (le_of_lt hWq)
    have h3 : (2 + 2 / ((Ww : ℚ) - 1)) * ((Ww : ℚ) - 1) = 2 * (Ww : ℚ) := by
      field_simp
      ring
    rw [h3] at h2
    linarith
  · right; right; left
    have h1 : srcGridNorm pm dv Hh Ww b 1 (d * (Hh * Ww) + (h * Ww + w)) + 1 ≤
        -(2 / ((Hh : ℚ) - 1)) := by linarith
    have h2 := mul_le_mul_of_nonneg_right h1 (le_of_lt hHq)
    have h3 : -(2 / ((Hh : ℚ) - 1)) * ((Hh : ℚ) - 1) = -2 := by
      field_simp
    rw [h3] at h2
    linarith
  · right; right; right
    have h1 : 2 + 2 / ((Hh : ℚ) - 1) ≤
        srcGridNorm pm dv Hh Ww b 1 (d * (Hh * Ww) + (h * Ww + w)) + 1 := by
      linarith
    have h2 := mul_le_mul_of_nonneg_right h1 (le_of_lt hHq)
    have h3 : (2 + 2 / ((Hh : ℚ) - 1)) * ((Hh : ℚ) - 1) = 2 * (Hh : ℚ) := by
      field_simp
      ring
    rw [h3] at h2
    linarith

/-- Claim C6 witness: a translation of (-10, -10, 0) with unit depths
    puts every projected pixel far outside the image and the warped depth
    slice reads 0. -/
theorem C6_homo_warp_far_outside_zero_witness :
    (0 : Nat) ∈ Finset.range 1 ∧
    (homo_warp sfOnes pmFar dvOne).data [0, 0, 0, 1, 1] = 0 :=
  ⟨by decide,
   C6_homo_warp_far_outside_zero sfOnes pmFar dvOne 1 1 1 2 2 rfl rfl
     (by norm_num) (by norm_num) 0 (by decide)
     (by
       intro b hb p hp
       fin_cases hb <;> fin_cases hp <;> left <;>
         norm_num [srcGridNorm, srcGridP, srcGridD, refGridD, refGrid,
           depthFlat, pmFar, dvOne, Finset.sum_range_succ])
     0 (by decide) 0 (by decide) 1 (by decide) 1 (by decide)⟩

/-- Claim C6 counterexample: with translation (-6/5, -6/5, 0) and unit
    depths, every reference pixel's normalized source coordinate is
    strictly outside [-1,1] in both components at depth slice 0, yet the
    warped output at pixel (1,1) equals 16/25, not 0: a coordinate just
    outside the valid range still receives bilinear weight from the
    border pixel. -/
theorem C6_homo_warp_outside_counterexample :
    (∀ p ∈ Finset.range 4,
      srcGridNorm pmShift dvOne 2 2 0 0 p < -1 ∧
      srcGridNorm pmShift dvOne 2 2 0 1 p < -1) ∧
    (homo_warp sfOnes pmShift dvOne).data [0, 0, 0, 1, 1] = 16 / 25 := by
  have hx : srcGridNorm pmShift dvOne 2 2 0 0 3 = -7 / 5 := by
    norm_num [srcGridNorm, srcGridP, srcGridD, refGridD, refGrid, depthFlat,
      pmShift, dvOne, Finset.sum_range_succ]
  have hy : srcGridNorm pmShift dvOne 2 2 0 1 3 = -7 / 5 := by
    norm_num [srcGridNorm, srcGridP, srcGridD, refGridD, refGrid, depthFlat,
      pmShift, dvOne, Finset.sum_range_succ]
  constructor
  · intro p hp
    fin_cases hp <;> constructor <;>
      norm_num [srcGridNorm, srcGridP, srcGridD, refGridD, refGrid, depthFlat,
        pmShift, dvOne, Finset.sum_range_succ]
  · have heval : homo_warp sfOnes pmShift dvOne =
        ⟨[1, 1, dvOne.shape.getD 1 0, 2, 2], sfOnes.dtype,
          homoWarpData sfOnes pmShift dvOne 2 2⟩ := rfl
    rw [heval]
    show homoWarpData sfOnes pmShift dvOne 2 2 [0, 0, 0, 1, 1] = 16 / 25
    have hq : 0 * (2 * 2) + (1 * 2 + 1) = 3 := by norm_num
    simp only [homoWarpData, hq, hx, hy]
    have hgs : grid_sample_point sfOnes.data 2 2 0 0 (-7 / 5) (-7 / 5) =
        16 / 25 := by
      simp only [grid_sample_point]
      have h1 : ((-7 / 5 : ℚ) + 1) * (((2 : Nat) : ℚ) - 1) / 2 = -1 / 5 := by
        push_cast
        norm_num
      rw [h1]
      have h2 : Int.floor ((-1 / 5 : ℚ)) = -1 := by
        norm_num [Int.floor_eq_iff]
      rw [h2]
      have hread00 : pixRead sfOnes.data 2 2 0 0 0 0 = 1 := by
        norm_num [pixRead, sfOnes]
      have hreadm : ∀ xi, pixRead sfOnes.data 2 2 0 0 (-1) xi = 0 := by
        intro xi
        simp only [pixRead]
        rw [if_neg]
        rintro ⟨-, -, h3, -⟩
        omega
      have hreadm2 : ∀ yi, pixRead sfOnes.data 2 2 0 0 yi (-1) = 0 := by
        intro yi
        simp only [pixRead]
        rw [if_neg]
        rintro ⟨h3, -⟩
        omega
      norm_num [hread00, hreadm, hreadm2]
    exact hgs

/-- Claim C9: homo_warp does not observably mutate its proj_mat or
    depth_values inputs: every allocation in the warp targets a fresh
    buffer id and the two in-place normalization writes target the
    freshly allocated src_grid buffer, so the contents of any previously
    allocated buffer (in particular proj_mat's and depth_values') are
    unchanged after the call. -/
theorem C9_homo_warp_no_input_mutation (σ0 : Store)
    (srcId projId depthId B C D Hh Ww : Nat)
    (hp : projId < σ0.next) (hd : depthId < σ0.next) :
    (homo_warp_state σ0 srcId projId depthId B C D Hh Ww).1.buf projId =
        σ0.buf projId ∧
    (homo_warp_state σ0 srcId projId depthId B C D Hh Ww).1.buf depthId =
        σ0.buf depthId := by
  constructor <;>
  · simp only [homo_warp_state, Store.alloc, Store.write]
    repeat rw [if_neg (by omega)]

/-- Claim C9 witness: with three pre-allocated buffers, running the warp
    leaves the proj_mat buffer (id 1) and depth_values buffer (id 2)
    unchanged. -/
theorem C9_homo_warp_no_input_mutation_witness :
    (1 : Nat) < store0.next ∧
    (homo_warp_state store0 0 1 2 1 1 1 2 2).1.buf 1 = store0.buf 1 ∧
    (homo_warp_state store0 0 1 2 1 1 1 2 2).1.buf 2 = store0.buf 2 :=
  ⟨by decide,
   (C9_homo_warp_no_input_mutation store0 0 1 2 1 1 1 2 2 (by decide)
      (by decide)).1,
   (C9_homo_warp_no_input_mutation store0 0 1 2 1 1 1 2 2 (by decide)
      (by decide)).2⟩
